import Mathlib

/-!
# Verification of the EMH-RESUME-SCORE core algorithms

Shallow embedding of the self-contained logic of the repository:

* the experience timeline aggregator `calculate_total_work_experience`
  (two identical copies in `app/services/resume_extraction.py`
  (`ResumeParser`) and `app/services/resume_scoring.py`
  (`ResumeScoringService`)), together with its `parse_date` helper;
* the skill taxonomy builder `map_unique_skills` /
  `map_skills_to_conditional` and the experience bucketer
  `map_experience_to_bucket` from
  `app/services/job_description_enhance.py`;
* the conditional candidate linking loop of `enhance_job_description`
  (lines 123-134), whose graph writes are modelled as an operation trace.

Python `datetime` values are modelled as a record of calendar fields
ordered lexicographically; Python integers are `Int` with floor division
(`Int.fdiv`) and floor modulus (`Int.fmod`), matching Python `//` and `%`.
-/

/-- A calendar date, modelling the `datetime` values produced by
`datetime.strptime(s, '%Y-%m-%d')` (time-of-day fields are always zero
there, so they are omitted).  Comparison of `datetime` values is
lexicographic on the calendar fields. -/
structure Date where
  year : Nat
  month : Nat
  day : Nat
deriving DecidableEq

/-- Comparison `a <= b` of `datetime` values: lexicographic on (year, month, day). -/
def Date.le (a b : Date) : Prop :=
  a.year < b.year ∨
    (a.year = b.year ∧
      (a.month < b.month ∨ (a.month = b.month ∧ a.day ≤ b.day)))

instance (a b : Date) : Decidable (Date.le a b) :=
  inferInstanceAs (Decidable (_ ∨ _))

/-- Python's `max(a, b)` on `datetime`: returns the first argument when
`a >= b` (equivalently when `b <= a`), otherwise the second. -/
def Date.pymax (a b : Date) : Date :=
  if Date.le b a then a else b

/-- The duration record `{'years': ..., 'months': ...}` returned by the
aggregator.  Python integers, so `Int`. -/
structure Duration where
  years : Int
  months : Int
deriving DecidableEq

/-- One parsed experience interval `{'start': ..., 'end': ...}`
(the element shape of `parsed_experiences`). -/
structure DateInterval where
  start : Date
  end_ : Date
deriving DecidableEq

/-- A `datetime` produced by the real program is calendar-valid: these are
the invariants `datetime` enforces at construction. -/
def Date.Valid (d : Date) : Prop :=
  1 ≤ d.year ∧ 1 ≤ d.month ∧ d.month ≤ 12 ∧ 1 ≤ d.day ∧ d.day ≤ 31

instance (d : Date) : Decidable d.Valid :=
  inferInstanceAs (Decidable (_ ∧ _ ∧ _ ∧ _ ∧ _))

/-- The month delta flushed for a finished run (lines 151 and 156 of
`resume_extraction.py`):
`(end.year - start.year) * 12 + end.month - start.month`. -/
def month_diff (s e : Date) : Int :=
  ((e.year : Int) - (s.year : Int)) * 12 + (e.month : Int) - (s.month : Int)

/-- The loop state of `calculate_total_work_experience`:
`current_start`, `current_end` and the accumulator `total_months`. -/
structure MergeState where
  current_start : Date
  current_end : Date
  total_months : Int
deriving DecidableEq

/-- One iteration of the merge loop (lines 142-153 of
`resume_extraction.py`): an interval starting no later than the running
maximum end extends the run, otherwise the finished run is flushed into
the accumulator and a new run starts. -/
def mergeStep (st : MergeState) (iv : DateInterval) : MergeState :=
  if Date.le iv.start st.current_end then
    ⟨st.current_start, Date.pymax st.current_end iv.end_, st.total_months⟩
  else
    ⟨iv.start, iv.end_,
      st.total_months + month_diff st.current_start st.current_end⟩

/-- Sort key relation of `parsed_experiences.sort(key=lambda x: x['start'])`. -/
def startLE (a b : DateInterval) : Prop := Date.le a.start b.start

instance : DecidableRel startLE := fun a b =>
  inferInstanceAs (Decidable (Date.le a.start b.start))

instance : IsTotal DateInterval startLE :=
  ⟨fun a b => by unfold startLE Date.le; omega⟩

instance : IsTrans DateInterval startLE :=
  ⟨fun a b c h1 h2 => by unfold startLE Date.le at *; omega⟩

/-- Conversion of the accumulated months into the returned record
(lines 156-162): the final run is flushed, then
`years = total_months // 12` and `months = total_months % 12`
with Python floor division and floor modulus. -/
def finalizeDuration (st : MergeState) : Duration :=
  let total := st.total_months + month_diff st.current_start st.current_end
  ⟨Int.fdiv total 12, Int.fmod total 12⟩

/-- The date-interval level of `calculate_total_work_experience`
(lines 132-162 of `resume_extraction.py`, after `parse_date` has been
applied): sort by start date (Python's sort is stable and keyed only on
`'start'`; `insertionSort` with `startLE` is the same stable sort), seed
the run with the first interval, fold the merge loop over the rest, and
convert.  The empty case returns `{'years': 0, 'months': 0}`. -/
def aggregateIntervals (l : List DateInterval) : Duration :=
  match List.insertionSort startLE l with
  | [] => ⟨0, 0⟩
  | h :: t => finalizeDuration (t.foldl mergeStep ⟨h.start, h.end_, 0⟩)

/-- The first-seen-order de-duplication loop used twice in
`map_unique_skills` (`for s in ...: if s not in unique: unique.append(s)`),
with the accumulator made explicit. -/
def pyDedupAux (seen : List String) : List String → List String
  | [] => seen
  | s :: rest =>
    if s ∈ seen then pyDedupAux seen rest else pyDedupAux (seen ++ [s]) rest

/-- First-seen-order de-duplication of a skill list. -/
def pyDedup (l : List String) : List String := pyDedupAux [] l

/-- The result dict of `map_unique_skills`:
`{"skills": unique_primary, "subskills": filtered_secondary}`. -/
structure UniqueSkills where
  skills : List String
  subskills : List String
deriving DecidableEq

/-- The fixed conflict set of `map_unique_skills`
(`{"Problem Solving", "Communication", "Critical Thinking"}`). -/
def conflicts : List String :=
  ["Problem Solving", "Communication", "Critical Thinking"]

/-- Model of `JobDescriptionEnhancer.map_unique_skills` (lines 50-72 of
`job_description_enhance.py`).  `none` models Python `None`; the
`primary_skills or []` / `secondary_skills or []` guards become `getD []`. -/
def map_unique_skills
    (primary_skills secondary_skills : Option (List String)) : UniqueSkills :=
  let primary_skills := primary_skills.getD []
  let secondary_skills := secondary_skills.getD []
  let unique_primary := pyDedup primary_skills
  let unique_secondary := pyDedup secondary_skills
  let filtered_secondary :=
    unique_secondary.filter (fun s => decide (s ∉ unique_primary))
  let filtered_secondary :=
    filtered_secondary.filter (fun s => decide (s ∉ conflicts))
  ⟨unique_primary, filtered_secondary⟩

/-- An element of a mapping entry's `subskills` list:
the dict `{'subskill': s}`. -/
structure SubskillEntry where
  subskill : String
deriving DecidableEq

/-- One entry of the list built by `map_skills_to_conditional`:
`{'skill': ..., 'subskills': [...]}`. -/
structure SkillMapping where
  skill : String
  subskills : List SubskillEntry
deriving DecidableEq

/-- Model of `JobDescriptionEnhancer.map_skills_to_conditional` (lines 74-88):
one entry per unique primary skill, each carrying the same
`filtered_secondary` list wrapped as `{'subskill': s}` dicts. -/
def map_skills_to_conditional
    (primary_skills secondary_skills : Option (List String)) :
    List SkillMapping :=
  let unique := map_unique_skills primary_skills secondary_skills
  unique.skills.map
    (fun main_skill => ⟨main_skill, unique.subskills.map (⟨·⟩)⟩)

/-- Model of `JobDescriptionEnhancer.map_experience_to_bucket` (lines 36-48).
The argument is annotated `int` in the source but Python never enforces
that, and the comparisons work on any real number, so the model uses `ℚ`. -/
def map_experience_to_bucket (years : ℚ) : String :=
  if years < 1 then "0-1"
  else if years < 2 then "1-2"
  else if years < 4 then "2-4"
  else if years < 8 then "4-8"
  else if years < 16 then "8-16"
  else "16+"

/-- A graph write performed by the candidate loop of
`enhance_job_description` (lines 123-134), via `Neo4jService`.  The Neo4j
driver calls themselves are external; what matters for the linking claim
is which calls are issued with which arguments. -/
inductive GraphOp where
  | addSkill (experience_bucket skill_name : String)
  | createSubskillUnderSkill (experience_bucket skill_name subskill_name : String)
  | linkCandidateToSubskill (candidate_name subskill_name : String)
  | linkCandidateToSkill (candidate_name skill_name : String)
deriving DecidableEq

/-- The per-candidate skill loop of `enhance_job_description`
(lines 123-134), as the trace of graph writes it issues: for every
mapping entry, `add_skill`, then — if `subskills` is truthy (non-empty) —
`create_subskill_under_skill` for each subskill followed by
`link_candidate_to_subskill` for each subskill; otherwise a single direct
`link_candidate_to_skill`. -/
def project_candidate_skills (experience_bucket candidate_name : String)
    (combined_mapping : List SkillMapping) : List GraphOp :=
  combined_mapping.flatMap fun entry =>
    GraphOp.addSkill experience_bucket entry.skill ::
      (if entry.subskills.isEmpty then
        [GraphOp.linkCandidateToSkill candidate_name entry.skill]
      else
        entry.subskills.map
          (fun se =>
            GraphOp.createSubskillUnderSkill experience_bucket entry.skill
              se.subskill) ++
          entry.subskills.map
            (fun se =>
              GraphOp.linkCandidateToSubskill candidate_name se.subskill))

/-- Digit-string evaluation, as done by `int(...)` on the groups captured
by `strptime` (the fold is the usual base-10 value). -/
def digitsToNat (cs : List Char) : Nat :=
  cs.foldl (fun a c => a * 10 + (c.toNat - 48)) 0

/-- The leap-year rule of `datetime`:
`year % 4 == 0 and (year % 100 != 0 or year % 400 == 0)`. -/
def isLeapYear (y : Nat) : Bool :=
  y % 4 == 0 && (y % 100 != 0 || y % 400 == 0)

/-- The days-in-month table of `datetime`. -/
def days_in_month (y m : Nat) : Nat :=
  if m = 2 then (if isLeapYear y then 29 else 28)
  else if m = 4 ∨ m = 6 ∨ m = 9 ∨ m = 11 then 30
  else 31

/-- Splits a character list at every `'-'` (the separator occurrences of
the `'%Y-%m-%d'` format); same grouping as Python's `str.split('-')`. -/
def splitDashes : List Char → List (List Char)
  | [] => [[]]
  | c :: rest =>
    match splitDashes rest with
    | [] => [[]]
    | g :: gs => if c = '-' then [] :: g :: gs else (c :: g) :: gs

/-- Model of `datetime.strptime(s, '%Y-%m-%d')`: `some` on success,
`none` when it raises `ValueError`.  CPython compiles the format to the
regex `(\d\d\d\d)-(1[0-2]|0[1-9]|[1-9])-(3[01]|[12]\d|0[1-9]|[1-9])`,
requires it to consume the whole string, and then `datetime(...)`
validates `MINYEAR <= year` and the day against the month length.  The
year group is exactly four digits; month and day are one or two digits
whose values lie in range (digits are modelled as ASCII digits). -/
def parseDateYMD (s : String) : Option Date :=
  match splitDashes s.data with
  | [yc, mc, dc] =>
    if (yc.length = 4 ∧ yc.all Char.isDigit = true) ∧
        ((mc.length = 1 ∨ mc.length = 2) ∧ mc.all Char.isDigit = true) ∧
        ((dc.length = 1 ∨ dc.length = 2) ∧ dc.all Char.isDigit = true) then
      let y := digitsToNat yc
      let m := digitsToNat mc
      let d := digitsToNat dc
      if 1 ≤ y ∧ 1 ≤ m ∧ m ≤ 12 ∧ 1 ≤ d ∧ d ≤ days_in_month y m then
        some ⟨y, m, d⟩
      else none
    else none
  | _ => none

/-- Model of `ResumeParser.parse_date` (lines 164-172 of `resume_extraction.py`):
`strptime` wrapped in `try/except ValueError`, returning `datetime.now()`
(the evaluation date, passed here explicitly as `now`) on failure. -/
def parse_date (date_string : String) (now : Date) : Date :=
  match parseDateYMD date_string with
  | some d => d
  | none => now

/-- A Python exception escaping the aggregator. -/
inductive PyExn where
  | typeError
deriving DecidableEq

/-- One element of the `experiences` argument:
`{'date_start': ..., 'date_end': ...}` with `Optional[str]` values
(the pydantic `ExperienceDto` declares both fields `Optional[str]`). -/
structure ExpRecord where
  date_start : Option String
  date_end : Option String
deriving DecidableEq

/-- Applying `parse_date` to a field value: a `None` date reaches
`strptime`, which raises `TypeError` — not caught by the
`except ValueError` handler. -/
def parse_date_field (now : Date) : Option String → Except PyExn Date
  | some s => .ok (parse_date s now)
  | none => .error .typeError

/-- One element of the parsing comprehension (line 133-135 of
`resume_extraction.py`):
`{'start': self.parse_date(exp['date_start']), 'end': self.parse_date(exp['date_end'])}`. -/
def parse_record (now : Date) (exp : ExpRecord) : Except PyExn DateInterval := do
  let s ← parse_date_field now exp.date_start
  let e ← parse_date_field now exp.date_end
  pure ⟨s, e⟩

/-- Model of `ResumeParser.calculate_total_work_experience` (lines 118-162 of
`resume_extraction.py`): early return `{'years': 0, 'months': 0}` on an
empty list, otherwise parse every record's two dates and run the
sort/merge aggregation. -/
def calculate_total_work_experience (now : Date)
    (experiences : List ExpRecord) : Except PyExn Duration :=
  if experiences.isEmpty then .ok ⟨0, 0⟩
  else do
    let parsed ← experiences.mapM (parse_record now)
    pure (aggregateIntervals parsed)

namespace scoring

/-- Model of `ResumeScoringService.parse_date` (lines 469-477 of
`resume_scoring.py`), a verbatim copy of `ResumeParser.parse_date`. -/
def parse_date (date_string : String) (now : Date) : Date :=
  match parseDateYMD date_string with
  | some d => d
  | none => now

/-- Field-level parsing for the scoring copy (same `None` behavior). -/
def parse_date_field (now : Date) : Option String → Except PyExn Date
  | some s => .ok (parse_date s now)
  | none => .error .typeError

/-- The merge-loop body of the scoring copy (lines 447-458 of
`resume_scoring.py`), a verbatim copy of the extraction one. -/
def mergeStep (st : MergeState) (iv : DateInterval) : MergeState :=
  if Date.le iv.start st.current_end then
    ⟨st.current_start, Date.pymax st.current_end iv.end_, st.total_months⟩
  else
    ⟨iv.start, iv.end_,
      st.total_months + month_diff st.current_start st.current_end⟩

/-- Final flush and conversion of the scoring copy (lines 461-467). -/
def finalizeDuration (st : MergeState) : Duration :=
  let total := st.total_months + month_diff st.current_start st.current_end
  ⟨Int.fdiv total 12, Int.fmod total 12⟩

/-- Interval-level aggregation of the scoring copy (lines 437-467). -/
def aggregateIntervals (l : List DateInterval) : Duration :=
  match List.insertionSort startLE l with
  | [] => ⟨0, 0⟩
  | h :: t => finalizeDuration (t.foldl mergeStep ⟨h.start, h.end_, 0⟩)

/-- One element of the parsing comprehension of the scoring copy
(lines 438-440 of `resume_scoring.py`). -/
def parse_record (now : Date) (exp : ExpRecord) : Except PyExn DateInterval := do
  let s ← parse_date_field now exp.date_start
  let e ← parse_date_field now exp.date_end
  pure ⟨s, e⟩

/-- Model of `ResumeScoringService.calculate_total_work_experience`
(lines 423-467 of `resume_scoring.py`), a verbatim copy of
`ResumeParser.calculate_total_work_experience`. -/
def calculate_total_work_experience (now : Date)
    (experiences : List ExpRecord) : Except PyExn Duration :=
  if experiences.isEmpty then .ok ⟨0, 0⟩
  else do
    let parsed ← experiences.mapM (parse_record now)
    pure (aggregateIntervals parsed)

end scoring

/-- Invariant carried by the merge loop when every interval is a proper,
calendar-valid one. -/
def StateOK (st : MergeState) : Prop :=
  st.current_start.Valid ∧ st.current_end.Valid ∧
    Date.le st.current_start st.current_end ∧ 0 ≤ st.total_months

theorem Date.le_refl (a : Date) : Date.le a a := by
  unfold Date.le; omega

theorem Date.le_trans {a b c : Date} (h1 : Date.le a b) (h2 : Date.le b c) :
    Date.le a c := by
  unfold Date.le at *; omega

theorem Date.le_total (a b : Date) : Date.le a b ∨ Date.le b a := by
  unfold Date.le; omega

theorem Date.le_antisymm {a b : Date} (h1 : Date.le a b) (h2 : Date.le b a) :
    a = b := by
  cases a; cases b
  simp only [Date.le] at h1 h2
  simp only [Date.mk.injEq]
  omega

theorem Date.le_pymax_left (a b : Date) : Date.le a (Date.pymax a b) := by
  unfold Date.pymax
  split
  · exact Date.le_refl a
  · rcases Date.le_total a b with h | h
    · exact h
    · exact absurd h (by assumption)

theorem Date.le_pymax_right (a b : Date) : Date.le b (Date.pymax a b) := by
  unfold Date.pymax
  split
  · assumption
  · exact Date.le_refl b

theorem Date.pymax_le {a b c : Date} (h1 : Date.le a c) (h2 : Date.le b c) :
    Date.le (Date.pymax a b) c := by
  unfold Date.pymax
  split <;> assumption

theorem Date.pymax_eq_or (a b : Date) :
    Date.pymax a b = a ∨ Date.pymax a b = b := by
  unfold Date.pymax
  split
  · exact Or.inl rfl
  · exact Or.inr rfl

theorem mem_pyDedupAux (l : List String) :
    ∀ (seen : List String) (s : String),
      s ∈ pyDedupAux seen l ↔ s ∈ seen ∨ s ∈ l := by
  induction l with
  | nil => intro seen s; simp [pyDedupAux]
  | cons a t ih =>
    intro seen s
    simp only [pyDedupAux]
    split
    · rw [ih]
      constructor
      · rintro (h | h)
        · exact Or.inl h
        · exact Or.inr (List.mem_cons_of_mem a h)
      · rintro (h | h)
        · exact Or.inl h
        · rcases List.mem_cons.mp h with h | h
          · subst h; exact Or.inl (by assumption)
          · exact Or.inr h
    · rw [ih]
      simp only [List.mem_append, List.mem_singleton, List.mem_cons]
      tauto

theorem mem_pyDedup (l : List String) (s : String) :
    s ∈ pyDedup l ↔ s ∈ l := by
  simp [pyDedup, mem_pyDedupAux]

theorem map_unique_skills_subskills_eq (ps ss : List String) :
    (map_unique_skills (some ps) (some ss)).subskills =
      (pyDedup ss).filter
        (fun s => decide (s ∉ ps) && decide (s ∉ conflicts)) := by
  simp only [map_unique_skills, Option.getD_some, List.filter_filter]
  apply List.filter_congr
  intro x _
  have : x ∈ pyDedup ps ↔ x ∈ ps := mem_pyDedup ps x
  by_cases hx : x ∈ ps
  · simp [hx, this.mpr hx]
  · simp [hx, this]

theorem mem_map_skills_subskills {ps ss : Option (List String)}
    {entry : SkillMapping} (h : entry ∈ map_skills_to_conditional ps ss) :
    entry.subskills =
      (map_unique_skills ps ss).subskills.map SubskillEntry.mk := by
  simp only [map_skills_to_conditional] at h
  rcases List.mem_map.mp h with ⟨m, _, rfl⟩
  rfl

/-- C1: the builder `map_skills_to_conditional` emits exactly one mapping per distinct
primary skill in first-seen order, and every mapping carries the same
subskill list: the first-seen-order de-duplicated secondary list with
every element of the primary list and every element of the conflict set
`{"Problem Solving", "Communication", "Critical Thinking"}` removed
(a broadcast mapping, not a per-skill pairing). -/
theorem map_skills_to_conditional_broadcast (ps ss : List String) :
    ((map_skills_to_conditional (some ps) (some ss)).map SkillMapping.skill =
        pyDedup ps) ∧
      ∀ entry ∈ map_skills_to_conditional (some ps) (some ss),
        entry.subskills =
          ((pyDedup ss).filter
              (fun s => decide (s ∉ ps) && decide (s ∉ conflicts))).map
            SubskillEntry.mk := by
  constructor
  · simp only [map_skills_to_conditional, map_unique_skills, List.map_map]
    exact List.map_id _
  · intro entry hmem
    rw [mem_map_skills_subskills hmem, map_unique_skills_subskills_eq]

/-- Witness for C1 at a concrete input. -/
theorem map_skills_to_conditional_broadcast_witness :
    (⟨"Python", [⟨"SQL"⟩]⟩ : SkillMapping).subskills =
      ((pyDedup ["SQL", "Communication"]).filter
          (fun s => decide (s ∉ ["Python"]) && decide (s ∉ conflicts))).map
        SubskillEntry.mk :=
  (map_skills_to_conditional_broadcast ["Python"] ["SQL", "Communication"]).2
    ⟨"Python", [⟨"SQL"⟩]⟩ (by decide)

/-- C4: when a sorted interval starts no later than the current run's end,
the merge loop extends the run to the maximum of the two ends instead of
adding both lengths; on the spec's concrete overlapping input the result
is 2 years 0 months. -/
theorem merge_overlap_extends :
    (∀ (st : MergeState) (iv : DateInterval),
      Date.le iv.start st.current_end →
        mergeStep st iv =
          ⟨st.current_start, Date.pymax st.current_end iv.end_,
            st.total_months⟩) ∧
      aggregateIntervals
          [⟨⟨2020, 1, 1⟩, ⟨2021, 6, 1⟩⟩, ⟨⟨2020, 6, 1⟩, ⟨2022, 1, 1⟩⟩] =
        ⟨2, 0⟩ :=
  ⟨fun st iv h => by simp [mergeStep, h], by decide⟩

/-- Witness for C4 at a concrete state and interval. -/
theorem merge_overlap_extends_witness :
    mergeStep ⟨⟨2020, 1, 1⟩, ⟨2021, 6, 1⟩, 0⟩ ⟨⟨2020, 6, 1⟩, ⟨2022, 1, 1⟩⟩ =
      ⟨⟨2020, 1, 1⟩, Date.pymax ⟨2021, 6, 1⟩ ⟨2022, 1, 1⟩, 0⟩ :=
  merge_overlap_extends.1 _ _ (by decide)

/-- C5: an interval starting strictly after the current run's end flushes
only the finished run's own month delta into the accumulator, so the gap
between runs contributes nothing; on the spec's concrete disjoint input
the result is 2 years 0 months, excluding the 2019-2020 gap. -/
theorem merge_disjoint_flushes :
    (∀ (st : MergeState) (iv : DateInterval),
      ¬ Date.le iv.start st.current_end →
        mergeStep st iv =
          ⟨iv.start, iv.end_,
            st.total_months + month_diff st.current_start st.current_end⟩) ∧
      aggregateIntervals
          [⟨⟨2018, 1, 1⟩, ⟨2019, 1, 1⟩⟩, ⟨⟨2020, 1, 1⟩, ⟨2021, 1, 1⟩⟩] =
        ⟨2, 0⟩ :=
  ⟨fun st iv h => by simp [mergeStep, h], by decide⟩

/-- Witness for C5 at a concrete state and interval. -/
theorem merge_disjoint_flushes_witness :
    mergeStep ⟨⟨2018, 1, 1⟩, ⟨2019, 1, 1⟩, 0⟩ ⟨⟨2020, 1, 1⟩, ⟨2021, 1, 1⟩⟩ =
      ⟨⟨2020, 1, 1⟩, ⟨2021, 1, 1⟩,
        0 + month_diff ⟨2018, 1, 1⟩ ⟨2019, 1, 1⟩⟩ :=
  merge_disjoint_flushes.1 _ _ (by decide)

/-- C7: a date string that is empty or not in `YYYY-MM-DD` format makes
`parse_date` return the evaluation date (`datetime.now()`) instead of
raising. -/
theorem parse_date_invalid_returns_now :
    ∀ (s : String) (now : Date),
      s = "" ∨ parseDateYMD s = none → parse_date s now = now := by
  intro s now h
  rcases h with rfl | h
  · rfl
  · simp [parse_date, h]

/-- Witness for C7 at a concrete malformed date string. -/
theorem parse_date_invalid_returns_now_witness :
    parse_date "2020/01/01" ⟨2025, 6, 15⟩ = ⟨2025, 6, 15⟩ :=
  parse_date_invalid_returns_now "2020/01/01" ⟨2025, 6, 15⟩
    (Or.inr (by decide))

/-- C8: the bucketer `map_experience_to_bucket` realizes the half-open lookup table
`[0,1) -> "0-1"`, `[1,2) -> "1-2"`, `[2,4) -> "2-4"`, `[4,8) -> "4-8"`,
`[8,16) -> "8-16"`, `[16,inf) -> "16+"` with no error path; in particular
`bucket(0.5) = "0-1"`, `bucket(1) = "1-2"`, `bucket(15.99) = "8-16"` and
`bucket(16) = "16+"`. -/
theorem map_experience_to_bucket_table :
    (∀ years : ℚ,
      (0 ≤ years → years < 1 → map_experience_to_bucket years = "0-1") ∧
      (1 ≤ years → years < 2 → map_experience_to_bucket years = "1-2") ∧
      (2 ≤ years → years < 4 → map_experience_to_bucket years = "2-4") ∧
      (4 ≤ years → years < 8 → map_experience_to_bucket years = "4-8") ∧
      (8 ≤ years → years < 16 → map_experience_to_bucket years = "8-16") ∧
      (16 ≤ years → map_experience_to_bucket years = "16+")) ∧
      map_experience_to_bucket (mkRat 1 2) = "0-1" ∧
      map_experience_to_bucket 1 = "1-2" ∧
      map_experience_to_bucket (mkRat 1599 100) = "8-16" ∧
      map_experience_to_bucket 16 = "16+" := by
  refine ⟨fun y => ⟨?_, ?_, ?_, ?_, ?_, ?_⟩, by decide, by decide, by decide,
    by decide⟩ <;>
    (intro h1
     first
       | (intro h2
          unfold map_experience_to_bucket
          split_ifs <;> first | rfl | (exfalso; linarith))
       | (unfold map_experience_to_bucket
          split_ifs <;> first | rfl | (exfalso; linarith)))

/-- Witness for C8 at a concrete fractional input. -/
theorem map_experience_to_bucket_table_witness :
    map_experience_to_bucket (mkRat 1 2) = "0-1" :=
  (map_experience_to_bucket_table.1 (mkRat 1 2)).1 (by decide) (by decide)

/-- C9: for every mapping produced for a candidate, the projector loop of
`enhance_job_description` links the candidate to each subskill node, never
issues any direct candidate-to-skill link when the subskills list is
non-empty, and issues the direct candidate-to-skill link exactly when the
subskills list is empty. -/
theorem conditional_candidate_linking
    (ps ss : Option (List String)) (experience_bucket candidate_name : String) :
    ∀ entry ∈ map_skills_to_conditional ps ss,
      (∀ se ∈ entry.subskills,
        GraphOp.linkCandidateToSubskill candidate_name se.subskill ∈
          project_candidate_skills experience_bucket candidate_name
            (map_skills_to_conditional ps ss)) ∧
      (entry.subskills ≠ [] →
        ∀ sk, GraphOp.linkCandidateToSkill candidate_name sk ∉
          project_candidate_skills experience_bucket candidate_name
            (map_skills_to_conditional ps ss)) ∧
      (entry.subskills = [] →
        GraphOp.linkCandidateToSkill candidate_name entry.skill ∈
          project_candidate_skills experience_bucket candidate_name
            (map_skills_to_conditional ps ss)) := by
  intro entry hentry
  refine ⟨?_, ?_, ?_⟩
  · intro se hse
    apply List.mem_flatMap.mpr
    refine ⟨entry, hentry, ?_⟩
    have hne : entry.subskills.isEmpty = false := by
      cases hsub : entry.subskills with
      | nil => rw [hsub] at hse; cases hse
      | cons a t => rfl
    simp only [hne, Bool.false_eq_true, if_false, List.mem_cons,
      List.mem_append, List.mem_map]
    exact Or.inr (Or.inr ⟨se, hse, rfl⟩)
  · intro hne sk hmem
    rcases List.mem_flatMap.mp hmem with ⟨other, hother, hop⟩
    have hsame : other.subskills = entry.subskills := by
      rw [mem_map_skills_subskills hother, mem_map_skills_subskills hentry]
    have hne' : other.subskills.isEmpty = false := by
      rw [hsame]
      cases hsub : entry.subskills with
      | nil => exact absurd hsub hne
      | cons a t => rfl
    simp only [hne', Bool.false_eq_true, if_false, List.mem_cons,
      List.mem_append, List.mem_map] at hop
    rcases hop with h | h | h
    · cases h
    · rcases h with ⟨se, _, h⟩; cases h
    · rcases h with ⟨se, _, h⟩; cases h
  · intro hempty
    apply List.mem_flatMap.mpr
    refine ⟨entry, hentry, ?_⟩
    simp [hempty]

/-- Witness for C9 at a concrete candidate and mapping. -/
theorem conditional_candidate_linking_witness :
    GraphOp.linkCandidateToSubskill "Alice" "SQL" ∈
      project_candidate_skills "0-1" "Alice"
        (map_skills_to_conditional (some ["Python"]) (some ["SQL"])) :=
  (conditional_candidate_linking (some ["Python"]) (some ["SQL"]) "0-1"
      "Alice" ⟨"Python", [⟨"SQL"⟩]⟩ (by decide)).1 ⟨"SQL"⟩ (by decide)

theorem parse_record_ok (now : Date) (s t : String) :
    parse_record now ⟨some s, some t⟩ =
      .ok ⟨parse_date s now, parse_date t now⟩ := rfl

theorem mapM_parse_record_ok (now : Date) :
    ∀ exps : List ExpRecord,
      (∀ e ∈ exps, e.date_start ≠ none ∧ e.date_end ≠ none) →
      ∃ l : List DateInterval,
        List.mapM (parse_record now) exps = .ok l := by
  intro exps
  induction exps with
  | nil => exact fun _ => ⟨[], rfl⟩
  | cons e t ih =>
    intro h
    obtain ⟨l, hl⟩ := ih (fun x hx => h x (List.mem_cons_of_mem e hx))
    obtain ⟨hs, he⟩ := h e (List.mem_cons_self e t)
    rcases e with ⟨os, oe⟩
    rcases os with _ | s
    · exact absurd rfl hs
    rcases oe with _ | u
    · exact absurd rfl he
    refine ⟨⟨parse_date s now, parse_date u now⟩ :: l, ?_⟩
    rw [List.mapM_cons, parse_record_ok, hl]
    rfl

/-- C6 (amended): the empty experience list returns
`{'years': 0, 'months': 0}` without error; records whose date fields are
present strings — even empty or malformed ones — always yield a Duration;
and `map_skills_to_conditional` treats `None` primary or secondary lists
as empty lists.  (A record whose date field is `None`, by contrast,
raises: see the counterexample.) -/
theorem empty_or_missing_inputs :
    (∀ now : Date, calculate_total_work_experience now [] = .ok ⟨0, 0⟩) ∧
      (∀ (now : Date) (exps : List ExpRecord),
        (∀ e ∈ exps, e.date_start ≠ none ∧ e.date_end ≠ none) →
          ∃ d, calculate_total_work_experience now exps = .ok d) ∧
      (∀ ss, map_skills_to_conditional none ss =
          map_skills_to_conditional (some []) ss) ∧
      (∀ ps, map_skills_to_conditional ps none =
          map_skills_to_conditional ps (some [])) := by
  refine ⟨fun now => rfl, ?_, fun ss => rfl, fun ps => rfl⟩
  intro now exps h
  unfold calculate_total_work_experience
  by_cases hemp : exps.isEmpty
  · rw [if_pos hemp]
    exact ⟨⟨0, 0⟩, rfl⟩
  · rw [if_neg hemp]
    obtain ⟨l, hl⟩ := mapM_parse_record_ok now exps h
    refine ⟨aggregateIntervals l, ?_⟩
    rw [hl]
    rfl

/-- Witness for C6 at a concrete record whose date strings are present
but empty/malformed. -/
theorem empty_or_missing_inputs_witness :
    ∃ d, calculate_total_work_experience ⟨2025, 1, 1⟩
        [⟨some "", some "nope"⟩] = .ok d :=
  empty_or_missing_inputs.2.1 ⟨2025, 1, 1⟩ [⟨some "", some "nope"⟩]
    (by decide)

/-- C6 counterexample: a record whose date field is missing (`None`)
makes the aggregator raise `TypeError` (uncaught by the `except
ValueError` handler in `parse_date`) instead of returning a Duration. -/
theorem aggregate_none_date_raises :
    calculate_total_work_experience ⟨2025, 1, 1⟩
        [⟨none, some "2020-01-01"⟩] = .error .typeError ∧
      (calculate_total_work_experience ⟨2025, 1, 1⟩
          [⟨none, some "2020-01-01"⟩]).isOk = false :=
  ⟨rfl, rfl⟩

/-- C10: the two textually identical copies of the aggregator — in
`ResumeParser` (`resume_extraction.py`) and `ResumeScoringService`
(`resume_scoring.py`) — and their `parse_date` helpers compute identical
results on every input and evaluation date. -/
theorem calculate_total_work_experience_copies_agree :
    (∀ (s : String) (now : Date),
      parse_date s now = scoring.parse_date s now) ∧
      ∀ (now : Date) (exps : List ExpRecord),
        calculate_total_work_experience now exps =
          scoring.calculate_total_work_experience now exps :=
  ⟨fun _ _ => rfl, fun _ _ => rfl⟩

theorem mergeStep_extend {st : MergeState} {iv : DateInterval}
    (h : Date.le iv.start st.current_end) :
    mergeStep st iv =
      ⟨st.current_start, Date.pymax st.current_end iv.end_,
        st.total_months⟩ := by
  simp [mergeStep, h]

theorem mergeStep_flush {st : MergeState} {iv : DateInterval}
    (h : ¬ Date.le iv.start st.current_end) :
    mergeStep st iv =
      ⟨iv.start, iv.end_,
        st.total_months + month_diff st.current_start st.current_end⟩ := by
  simp [mergeStep, h]

theorem month_diff_nonneg {s e : Date} (hs : s.Valid) (he : e.Valid)
    (hle : Date.le s e) : 0 ≤ month_diff s e := by
  unfold month_diff
  unfold Date.Valid at hs he
  unfold Date.le at hle
  omega

theorem mergeStep_ok {st : MergeState} {iv : DateInterval} (h : StateOK st)
    (hv : iv.start.Valid ∧ iv.end_.Valid ∧ Date.le iv.start iv.end_) :
    StateOK (mergeStep st iv) := by
  obtain ⟨h1, h2, h3, h4⟩ := h
  obtain ⟨hv1, hv2, hv3⟩ := hv
  by_cases hc : Date.le iv.start st.current_end
  · rw [mergeStep_extend hc]
    refine ⟨h1, ?_, ?_, h4⟩
    · rcases Date.pymax_eq_or st.current_end iv.end_ with he | he <;> rw [he]
      · exact h2
      · exact hv2
    · exact Date.le_trans h3 (Date.le_pymax_left _ _)
  · rw [mergeStep_flush hc]
    exact ⟨hv1, hv2, hv3, add_nonneg h4 (month_diff_nonneg h1 h2 h3)⟩

theorem foldl_merge_ok :
    ∀ (t : List DateInterval) (st : MergeState), StateOK st →
      (∀ x ∈ t, x.start.Valid ∧ x.end_.Valid ∧ Date.le x.start x.end_) →
      StateOK (t.foldl mergeStep st) := by
  intro t
  induction t with
  | nil => exact fun st h _ => h
  | cons a t ih =>
    intro st h hall
    simp only [List.foldl_cons]
    exact ih _ (mergeStep_ok h (hall a (List.mem_cons_self a t)))
      (fun x hx => hall x (List.mem_cons_of_mem a hx))

theorem finalizeDuration_months_range (st : MergeState) :
    0 ≤ (finalizeDuration st).months ∧ (finalizeDuration st).months ≤ 11 := by
  unfold finalizeDuration
  simp only
  rw [Int.fmod_eq_emod _ (by decide : (0 : Int) ≤ 12)]
  constructor
  · exact Int.emod_nonneg _ (by decide)
  · have := Int.emod_lt_of_pos
      (st.total_months + month_diff st.current_start st.current_end)
      (by decide : (0 : Int) < 12)
    omega

theorem finalizeDuration_years_nonneg {st : MergeState} (h : StateOK st) :
    0 ≤ (finalizeDuration st).years := by
  unfold finalizeDuration
  simp only
  rw [Int.fdiv_eq_ediv _ (by decide : (0 : Int) ≤ 12)]
  exact Int.ediv_nonneg
    (add_nonneg h.2.2.2 (month_diff_nonneg h.1 h.2.1 h.2.2.1)) (by decide)

/-- C2 (amended): the aggregator always returns months in `[0, 11]`, and
returns non-negative years whenever every interval is a calendar-valid
one with `end >= start`.  (An interval whose end precedes its start can
drive years negative: see the counterexample.) -/
theorem aggregate_duration_range (l : List DateInterval) :
    (0 ≤ (aggregateIntervals l).months ∧
        (aggregateIntervals l).months ≤ 11) ∧
      ((∀ iv ∈ l,
          iv.start.Valid ∧ iv.end_.Valid ∧ Date.le iv.start iv.end_) →
        0 ≤ (aggregateIntervals l).years) := by
  unfold aggregateIntervals
  rcases e : List.insertionSort startLE l with _ | ⟨h, t⟩
  · exact ⟨⟨by decide, by decide⟩, fun _ => by decide⟩
  · constructor
    · exact finalizeDuration_months_range _
    · intro hl
      have hperm := List.perm_insertionSort startLE l
      rw [e] at hperm
      have hall : ∀ x ∈ h :: t,
          x.start.Valid ∧ x.end_.Valid ∧ Date.le x.start x.end_ :=
        fun x hx => hl x (hperm.subset hx)
      have hinit : StateOK ⟨h.start, h.end_, 0⟩ := by
        obtain ⟨a, b, c⟩ := hall h (List.mem_cons_self h t)
        exact ⟨a, b, c, le_refl 0⟩
      exact finalizeDuration_years_nonneg
        (foldl_merge_ok t _ hinit
          (fun x hx => hall x (List.mem_cons_of_mem h hx)))

/-- C2 counterexample: on an interval whose end precedes its start, the
aggregator returns a negative years value (`{'years': -1, 'months': 0}`),
contradicting `years >= 0`. -/
theorem aggregate_years_negative_counterexample :
    (aggregateIntervals [⟨⟨2021, 1, 1⟩, ⟨2020, 1, 1⟩⟩]).years < 0 ∧
      aggregateIntervals [⟨⟨2021, 1, 1⟩, ⟨2020, 1, 1⟩⟩] = ⟨-1, 0⟩ := by
  constructor <;> decide

/-- Witness for C2 at a concrete proper interval list. -/
theorem aggregate_duration_range_witness :
    0 ≤ (aggregateIntervals [⟨⟨2020, 1, 1⟩, ⟨2021, 1, 1⟩⟩]).years :=
  (aggregate_duration_range [⟨⟨2020, 1, 1⟩, ⟨2021, 1, 1⟩⟩]).2 (by decide)

theorem Date.pymax_comm (a b : Date) : Date.pymax a b = Date.pymax b a :=
  Date.le_antisymm
    (Date.pymax_le (Date.le_pymax_right b a) (Date.le_pymax_left b a))
    (Date.pymax_le (Date.le_pymax_right a b) (Date.le_pymax_left a b))

theorem Date.pymax_right_comm (x a b : Date) :
    Date.pymax (Date.pymax x a) b = Date.pymax (Date.pymax x b) a := by
  apply Date.le_antisymm
  · apply Date.pymax_le
    · apply Date.pymax_le
      · exact Date.le_trans (Date.le_pymax_left x b) (Date.le_pymax_left _ a)
      · exact Date.le_pymax_right (Date.pymax x b) a
    · exact Date.le_trans (Date.le_pymax_right x b) (Date.le_pymax_left _ a)
  · apply Date.pymax_le
    · apply Date.pymax_le
      · exact Date.le_trans (Date.le_pymax_left x a) (Date.le_pymax_left _ b)
      · exact Date.le_pymax_right (Date.pymax x a) b
    · exact Date.le_trans (Date.le_pymax_right x a) (Date.le_pymax_left _ b)

theorem Date.le_origin {d : Date} (h : Date.le d ⟨0, 0, 0⟩) :
    d = ⟨0, 0, 0⟩ := by
  cases d
  simp only [Date.le] at h
  simp only [Date.mk.injEq]
  omega

theorem Date.pymax_origin (e : Date) :
    Date.pymax ⟨0, 0, 0⟩ e = e := by
  have h := Date.le_pymax_right (⟨0, 0, 0⟩ : Date) e
  rcases Date.pymax_eq_or (⟨0, 0, 0⟩ : Date) e with he | he
  · rw [he] at h ⊢
    exact (Date.le_origin h).symm
  · exact he

/-- Processing an interval from the sentinel state yields exactly the
run-seeding state, so the seeded fold is a fold over the full sorted
list. -/
theorem mergeStep_origin (h : DateInterval) :
    mergeStep ⟨⟨0, 0, 0⟩, ⟨0, 0, 0⟩, 0⟩ h = ⟨h.start, h.end_, 0⟩ := by
  by_cases hc : Date.le h.start (⟨0, 0, 0⟩ : Date)
  · rw [mergeStep_extend hc]
    simp [Date.pymax_origin, Date.le_origin hc]
  · rw [mergeStep_flush hc]
    simp [month_diff]

theorem foldl_merge_origin (h : DateInterval) (t : List DateInterval) :
    List.foldl mergeStep ⟨h.start, h.end_, 0⟩ t =
      List.foldl mergeStep ⟨⟨0, 0, 0⟩, ⟨0, 0, 0⟩, 0⟩ (h :: t) := by
  simp [List.foldl_cons, mergeStep_origin]

/-- Two merge steps at the same start date commute, provided both
intervals are proper (`start <= end`). -/
theorem mergeStep_comm (st : MergeState) (a b : DateInterval)
    (hs : a.start = b.start) (ha : Date.le a.start a.end_)
    (hb : Date.le b.start b.end_) :
    mergeStep (mergeStep st a) b = mergeStep (mergeStep st b) a := by
  by_cases hc : Date.le a.start st.current_end
  · have hc' : Date.le b.start st.current_end := hs ▸ hc
    rw [mergeStep_extend hc, mergeStep_extend hc',
      mergeStep_extend (Date.le_trans hc' (Date.le_pymax_left _ _)),
      mergeStep_extend (Date.le_trans hc (Date.le_pymax_left _ _))]
    rw [Date.pymax_right_comm]
  · have hc' : ¬ Date.le b.start st.current_end := fun h => hc (hs ▸ h)
    rw [mergeStep_flush hc, mergeStep_flush hc',
      mergeStep_extend (show Date.le b.start a.end_ from hs ▸ ha),
      mergeStep_extend (show Date.le a.start b.end_ from hs.symm ▸ hb)]
    rw [hs, Date.pymax_comm]

/-- Folding a sorted batch with a minimal-start member `b` equals first
stepping on `b` and folding the remainder: the step for `b` can be pulled
to the front because steps at equal start dates commute. -/
theorem foldl_merge_erase :
    ∀ (l : List DateInterval) (st : MergeState) (b : DateInterval),
      List.Sorted startLE l →
      (∀ x ∈ l, Date.le x.start x.end_) →
      b ∈ l →
      (∀ x ∈ l, Date.le b.start x.start) →
      l.foldl mergeStep st = (l.erase b).foldl mergeStep (mergeStep st b) := by
  intro l
  induction l with
  | nil => intro st b _ _ hb _; cases hb
  | cons a t ih =>
    intro st b hsort hp hb hmin
    by_cases hab : b = a
    · subst hab
      rw [List.erase_cons_head]
      rfl
    · have hbt : b ∈ t := by
        rcases List.mem_cons.mp hb with h | h
        · exact absurd h hab
        · exact h
      have heq : a.start = b.start :=
        Date.le_antisymm ((List.sorted_cons.mp hsort).1 b hbt)
          (hmin a (List.mem_cons_self a t))
      have herase : (a :: t).erase b = a :: t.erase b := by
        apply List.erase_cons_tail
        simp only [beq_iff_eq]
        exact fun h => hab h.symm
      rw [herase]
      simp only [List.foldl_cons]
      rw [ih (mergeStep st a) b hsort.of_cons
        (fun x hx => hp x (List.mem_cons_of_mem a hx)) hbt
        (fun x hx => hmin x (List.mem_cons_of_mem a hx))]
      rw [mergeStep_comm st a b heq (hp a (List.mem_cons_self a t)) (hp b hb)]

/-- Folding the merge loop over two sorted-by-start permutations of the
same proper intervals gives the same state: within a tie of equal start
dates the steps commute, and across different start dates the sorted
order is forced. -/
theorem foldl_merge_perm :
    ∀ (n : Nat) (l1 l2 : List DateInterval) (st : MergeState),
      l1.length = n → l1.Perm l2 →
      List.Sorted startLE l1 → List.Sorted startLE l2 →
      (∀ x ∈ l1, Date.le x.start x.end_) →
      l1.foldl mergeStep st = l2.foldl mergeStep st := by
  intro n
  induction n with
  | zero =>
    intro l1 l2 st hlen hperm _ _ _
    have h1 : l1 = [] := List.length_eq_zero.mp hlen
    subst h1
    rw [hperm.symm.eq_nil]
  | succ n ih =>
    intro l1 l2 st hlen hperm hs1 hs2 hp
    rcases l1 with _ | ⟨a, t1⟩
    · cases hlen
    rcases l2 with _ | ⟨b, t2⟩
    · have := hperm.eq_nil
      cases this
    by_cases hab : a = b
    · subst hab
      simp only [List.foldl_cons]
      exact ih t1 t2 (mergeStep st a) (by simpa using hlen) hperm.cons_inv
        hs1.of_cons hs2.of_cons
        (fun x hx => hp x (List.mem_cons_of_mem a hx))
    · have hbl1 : b ∈ a :: t1 := hperm.mem_iff.mpr (List.mem_cons_self b t2)
      have hmin : ∀ x ∈ a :: t1, Date.le b.start x.start := by
        intro x hx
        rcases List.mem_cons.mp (hperm.subset hx) with rfl | hx2
        · exact Date.le_refl _
        · exact (List.sorted_cons.mp hs2).1 x hx2
      rw [foldl_merge_erase (a :: t1) st b hs1 hp hbl1 hmin]
      have hlen' : ((a :: t1).erase b).length = n := by
        rw [List.length_erase_of_mem hbl1]
        simp only [List.length_cons] at hlen ⊢
        omega
      have hperm2 : ((a :: t1).erase b).Perm t2 := by
        have h2 := hperm.erase b
        rwa [List.erase_cons_head] at h2
      have hsort' : List.Sorted startLE ((a :: t1).erase b) :=
        List.Pairwise.sublist (List.erase_sublist _ _) hs1
      have hp' : ∀ x ∈ (a :: t1).erase b, Date.le x.start x.end_ :=
        fun x hx => hp x (List.mem_of_mem_erase hx)
      rw [ih _ t2 (mergeStep st b) hlen' hperm2 hsort' hs2.of_cons hp']
      rfl

/-- C3 (amended): for intervals with `start <= end` — every interval the
parsing layer can produce with a consistent evaluation date, and the only
shape §4.1 guarantees — the aggregator is order-independent: any
permutation of the input list yields the same Duration.  (With an
inverted interval tied on its start date the result can depend on input
order: see the counterexample.) -/
theorem aggregate_perm_invariant (l1 l2 : List DateInterval)
    (hperm : l1.Perm l2)
    (hproper : ∀ iv ∈ l1, Date.le iv.start iv.end_) :
    aggregateIntervals l1 = aggregateIntervals l2 := by
  unfold aggregateIntervals
  have hs1 := List.sorted_insertionSort startLE l1
  have hs2 := List.sorted_insertionSort startLE l2
  have hp1 := List.perm_insertionSort startLE l1
  have hp2 := List.perm_insertionSort startLE l2
  have hp12 : (List.insertionSort startLE l1).Perm
      (List.insertionSort startLE l2) := (hp1.trans hperm).trans hp2.symm
  have hproper1 : ∀ x ∈ List.insertionSort startLE l1,
      Date.le x.start x.end_ := fun x hx => hproper x (hp1.subset hx)
  rcases e1 : List.insertionSort startLE l1 with _ | ⟨h1, t1⟩ <;>
    rcases e2 : List.insertionSort startLE l2 with _ | ⟨h2, t2⟩
  · rfl
  · rw [e1, e2] at hp12
    cases hp12.symm.eq_nil
  · rw [e1, e2] at hp12
    cases hp12.eq_nil
  · rw [e1] at hs1 hproper1
    rw [e2] at hs2
    rw [e1, e2] at hp12
    show finalizeDuration (List.foldl mergeStep ⟨h1.start, h1.end_, 0⟩ t1) =
      finalizeDuration (List.foldl mergeStep ⟨h2.start, h2.end_, 0⟩ t2)
    rw [foldl_merge_origin h1 t1, foldl_merge_origin h2 t2,
      foldl_merge_perm (h1 :: t1).length (h1 :: t1) (h2 :: t2) _ rfl hp12
        hs1 hs2 hproper1]

/-- C3 counterexample: with an inverted interval (end before start) tied
on start date, swapping the two inputs changes the result, so `aggregate`
is not permutation-invariant on arbitrary interval pairs. -/
theorem aggregate_perm_counterexample :
    ([⟨⟨2020, 10, 1⟩, ⟨2020, 1, 1⟩⟩, ⟨⟨2020, 10, 1⟩, ⟨2021, 8, 1⟩⟩] :
        List DateInterval).Perm
        [⟨⟨2020, 10, 1⟩, ⟨2021, 8, 1⟩⟩, ⟨⟨2020, 10, 1⟩, ⟨2020, 1, 1⟩⟩] ∧
      aggregateIntervals
          [⟨⟨2020, 10, 1⟩, ⟨2020, 1, 1⟩⟩, ⟨⟨2020, 10, 1⟩, ⟨2021, 8, 1⟩⟩] ≠
        aggregateIntervals
          [⟨⟨2020, 10, 1⟩, ⟨2021, 8, 1⟩⟩, ⟨⟨2020, 10, 1⟩, ⟨2020, 1, 1⟩⟩] :=
  ⟨List.Perm.swap _ _ _, by decide⟩

/-- Witness for C3 at a concrete proper pair of intervals. -/
theorem aggregate_perm_invariant_witness :
    aggregateIntervals
        [⟨⟨2018, 1, 1⟩, ⟨2019, 1, 1⟩⟩, ⟨⟨2020, 1, 1⟩, ⟨2021, 1, 1⟩⟩] =
      aggregateIntervals
        [⟨⟨2020, 1, 1⟩, ⟨2021, 1, 1⟩⟩, ⟨⟨2018, 1, 1⟩, ⟨2019, 1, 1⟩⟩] :=
  aggregate_perm_invariant _ _ (List.Perm.swap _ _ _) (by decide)
